import Mathlib

/-!
# Verification of the sshr TUI against its specification

This file gives a shallow embedding, in Lean 4, of the parts of the `sshr`
repository (a terminal UI for SSH/SFTP over external `ssh`/`scp` tools) that
the specification's testable properties talk about:

* the host registry (`src/config.rs`, `src/app/host.rs`): SSH-config parsing,
  custom TOML hosts, merge and deduplication;
* the SSH session worker (`src/app/state.rs`): connection probe and the
  lifecycle event trace, and the main-loop guard that prevents a second
  concurrent worker (`src/main.rs`, `src/app/keymap.rs`);
* the SFTP browsing logic (`src/sftp_logic/local.rs`, `src/sftp_logic/remote.rs`):
  directory listing construction and sorting, selection movement, and path
  navigation;
* the transfer progress protocol (`src/sftp_logic/transfer.rs`).

External effects (file reads, process spawns, DNS resolution, channel sends)
are passed in as explicit parameters: a function that in Rust performs I/O is
modelled as a pure function of the I/O outcomes it observes.  Rust strings are
embedded as Lean `String` (sequences of Unicode scalar values); Rust's `str`
methods used by the source are re-implemented below on `List Char` by
structural recursion so that every definition is executable and
kernel-reducible.  Machine integers (`u16`, `u64`, `usize`) are embedded as
`Nat`; the only arithmetic the embedded code performs on them (addition,
saturating subtraction, comparisons) cannot overflow in the scenarios covered
by the theorems, and Rust's `usize` saturating_sub coincides with `Nat`
subtraction.
-/

deriving instance DecidableEq for Except

namespace Sshr

/-! ## String helpers (models of Rust `str` methods) -/

/-- Model of Rust `str::trim` on the character list of a string. -/
def trimData (l : List Char) : List Char :=
  ((l.dropWhile Char.isWhitespace).reverse.dropWhile Char.isWhitespace).reverse

/-- Model of Rust `str::trim`. -/
def strTrim (s : String) : String := String.mk (trimData s.data)

/-- Model of Rust `str::to_lowercase` (the source only feeds it ASCII
configuration keywords). -/
def strToLower (s : String) : String := String.mk (s.data.map Char.toLower)

/-- Model of Rust `str::starts_with(&str)` / `str::starts_with(char)`. -/
def strStartsWith (s pre : String) : Bool := pre.data.isPrefixOf s.data

/-- Model of Rust byte-slicing `&line[n..]` for an ASCII prefix of length `n`:
drop the first `n` characters. -/
def strDrop (s : String) (n : Nat) : String := String.mk (s.data.drop n)

/-- Model of Rust `str::ends_with(char)`. -/
def strEndsWithChar (s : String) (c : Char) : Bool := s.data.getLast? == some c

/-- Model of Rust `str::trim_end_matches(char)`: remove every trailing
occurrence of `c`. -/
def trimEndMatchesChar (s : String) (c : Char) : String :=
  String.mk ((s.data.reverse.dropWhile (fun x => x == c)).reverse)

/-- Splitting a character list at every occurrence of `sep`, keeping empty
pieces, as Rust `str::split(char)` does. -/
def splitCharList (sep : Char) : List Char → List (List Char)
  | [] => [[]]
  | c :: cs =>
    if c = sep then [] :: splitCharList sep cs
    else
      match splitCharList sep cs with
      | [] => [[c]]
      | t :: ts => (c :: t) :: ts

/-- Model of Rust `str::split(char)` collected into a vector. -/
def splitChar (s : String) (sep : Char) : List String :=
  (splitCharList sep s.data).map String.mk

/-- Joining with a single-character separator, as Rust `Vec::join(&str)` with a
one-character separator does. -/
def joinCharList (sep : Char) : List (List Char) → List Char
  | [] => []
  | [x] => x
  | x :: xs => x ++ sep :: joinCharList sep xs

/-- Model of Rust `Vec::<&str>::join(sep)` for a one-character separator. -/
def strJoin (sep : Char) (parts : List String) : String :=
  String.mk (joinCharList sep (parts.map String.data))

/-- Splitting at whitespace characters, keeping empty pieces (helper for
`strSplitWhitespace`). -/
def splitWsList : List Char → List (List Char)
  | [] => [[]]
  | c :: cs =>
    if c.isWhitespace then [] :: splitWsList cs
    else
      match splitWsList cs with
      | [] => [[c]]
      | t :: ts => (c :: t) :: ts

/-- Model of Rust `str::split_whitespace`: maximal non-whitespace runs. -/
def strSplitWhitespace (s : String) : List String :=
  ((splitWsList s.data).filter (fun l => l ≠ [])).map String.mk

/-- Model of Rust `str::lines`: split at `'\n'`, strip a trailing `'\r'` from
each line, and do not produce a final empty line for a trailing newline. -/
def strLines (s : String) : List String :=
  if s.data = [] then []
  else
    let parts := splitCharList '\n' s.data
    let parts := if s.data.getLast? = some '\n' then parts.dropLast else parts
    parts.map fun l => String.mk (if l.getLast? = some '\r' then l.dropLast else l)

/-- Model of Rust `str::parse::<u64>`: an optional `'+'` sign followed by at
least one ASCII digit (overflow is not modelled; the source uses the parse
only for file sizes and ports, with failures discarded). -/
def parseU64 (s : String) : Option Nat :=
  let ds := match s.data with
    | '+' :: rest => rest
    | l => l
  if ds ≠ [] ∧ ds.all Char.isDigit then
    some (ds.foldl (fun n c => n * 10 + (c.toNat - 48)) 0)
  else none

/-- Model of Rust `str::parse::<u16>`: as `parseU64` but bounded by `u16`. -/
def parseU16 (s : String) : Option Nat :=
  match parseU64 s with
  | some n => if n < 65536 then some n else none
  | none => none

/-- Three-way comparison of naturals, mirroring Rust `Ord::cmp` on integers. -/
def cmpNat (a b : Nat) : Ordering :=
  if a < b then .lt else if b < a then .gt else .eq

/-- Model of Rust `String::cmp`: lexicographic comparison of the character
sequences (Rust compares UTF-8 bytes, which orders exactly like the scalar
values). -/
def lexCmp : List Char → List Char → Ordering
  | [], [] => .eq
  | [], _ :: _ => .lt
  | _ :: _, [] => .gt
  | a :: l1, b :: l2 =>
    match cmpNat a.toNat b.toNat with
    | .eq => lexCmp l1 l2
    | o => o

/-- Rust `String::cmp` on Lean strings. -/
def strCmp (a b : String) : Ordering := lexCmp a.data b.data

/-! ## Host registry (src/models.rs, src/config.rs, src/app/host.rs) -/

/-- SshHost from src/models.rs.  The Rust field `alias` is a Lean keyword and
is embedded as `aliasName`. -/
structure SshHost where
  aliasName : String
  host : String
  user : String
  port : Option Nat
  description : Option String
  group : Option String
deriving DecidableEq

/-- SshHost::new from src/models.rs. -/
def SshHost.new (aliasName host user : String) : SshHost :=
  { aliasName := aliasName, host := host, user := user,
    port := some 22, description := none, group := none }

/-- HostGroup from src/config.rs. -/
structure HostGroup where
  name : String
  description : Option String
  hosts : List SshHost
deriving DecidableEq

/-- HostsConfig from src/config.rs. -/
structure HostsConfig where
  groups : List HostGroup
deriving DecidableEq

/-- ConfigManager::load_hosts from src/config.rs (lines 172-195).
`hostsFile` is the content of `hosts.toml` (`none` when the file does not
exist); `parseToml` is the external TOML deserializer (`toml::from_str`),
whose outcome is a parameter of the model.  A missing file yields `Ok([])`;
a parse failure is a hard error carrying the `context` message; otherwise the
groups are flattened and every host inherits its group's name. -/
def ConfigManager.load_hosts (hostsFile : Option String)
    (parseToml : String → Except String HostsConfig) : Except String (List SshHost) :=
  match hostsFile with
  | none => .ok []
  | some content =>
    match parseToml content with
    | .error _ => .error "Failed to parse hosts file"
    | .ok config =>
      .ok (config.groups.flatMap fun g => g.hosts.map fun h => { h with group := some g.name })

/-- The duplicate-alias guard used when pushing a parsed system host
(src/app/host.rs lines 92-102 and 128-138): the host is appended only if no
host with its alias is present yet. -/
def pushIfFreshAlias (hosts : List SshHost) (h : SshHost) : List SshHost :=
  if hosts.any (fun x => x.aliasName == h.aliasName) then hosts else hosts ++ [h]

/-- One iteration of the SSH-config parsing loop of App::load_ssh_config
(src/app/host.rs lines 84-124).  The accumulator carries the hosts pushed so
far and the `current_host` being built. -/
def sshConfigLineStep (acc : List SshHost × Option SshHost) (rawLine : String) :
    List SshHost × Option SshHost :=
  let line := strTrim rawLine
  if line = "" then acc
  else if strStartsWith (strToLower line) "host " then
    let hosts := match acc.2 with
      | some h => pushIfFreshAlias acc.1 h
      | none => acc.1
    (hosts, some (SshHost.new (strTrim (strDrop line 5)) "" "root"))
  else
    match acc.2 with
    | none => acc
    | some h =>
      let parts := strSplitWhitespace line
      if parts.length < 2 then acc
      else
        let key := strToLower (parts.getD 0 "")
        let value := parts.getD 1 ""
        if key = "hostname" then (acc.1, some { h with host := value })
        else if key = "user" then (acc.1, some { h with user := value })
        else if key = "port" then
          match parseU16 value with
          | some p => (acc.1, some { h with port := some p })
          | none => acc
        else acc

/-- The reachability pass of App::load_ssh_config (src/app/host.rs lines
146-160): for every host without a group, the description is set from a
best-effort address resolution, modelled by the oracle `reachable`. -/
def applyReachability (reachable : String → Nat → Bool) (hosts : List SshHost) :
    List SshHost :=
  hosts.map fun h =>
    if h.group = none then
      let d := if reachable h.host (h.port.getD 22) then "Reachable" else "Unreachable"
      { h with description := some d }
    else h

/-- App::load_ssh_config (src/app/host.rs lines 59-163).  `hosts` is
`self.hosts` on entry; `sshConfig` is the content of the system SSH config
file (`none` when missing, in which case the function returns Ok after only
the retain pass).  The model assumes the file read succeeds whenever the file
exists (read errors are the sole other failure path in the source). -/
def App.load_ssh_config (hosts : List SshHost) (sshConfig : Option String)
    (reachable : String → Nat → Bool) : Except String (List SshHost) :=
  let kept := hosts.filter fun h => h.group.isSome
  match sshConfig with
  | none => .ok kept
  | some content =>
    let acc := (strLines content).foldl sshConfigLineStep (kept, none)
    let parsed := match acc.2 with
      | some h => pushIfFreshAlias acc.1 h
      | none => acc.1
    .ok (applyReachability reachable parsed)

/-- The first-occurrence-wins filter shared by the `retain` closure of
App::load_custom_hosts (src/app/host.rs lines 172-182) and the loop of
App::handle_duplicate_hosts (lines 197-210): keep a host iff its alias is not
in `seen`, inserting kept aliases into `seen`. -/
def retainFreshAliases (seen : List String) : List SshHost → List SshHost
  | [] => []
  | h :: t =>
    if h.aliasName ∈ seen then retainFreshAliases seen t
    else h :: retainFreshAliases (h.aliasName :: seen) t

/-- App::load_custom_hosts (src/app/host.rs lines 166-194).  `customResult` is
the outcome of ConfigManager::load_hosts.  On success the custom hosts whose
alias already exists are dropped (the source logs "System host will be used")
and the remainder is spliced at the front; on error the error is logged and
swallowed and the function still returns Ok with the hosts unchanged. -/
def App.load_custom_hosts (hosts : List SshHost)
    (customResult : Except String (List SshHost)) : Except String (List SshHost) :=
  match customResult with
  | .ok custom =>
    .ok (retainFreshAliases (hosts.map fun h => h.aliasName) custom ++ hosts)
  | .error _ => .ok hosts

/-- App::handle_duplicate_hosts (src/app/host.rs lines 197-210): drop every
host whose alias was already seen, keeping first occurrences. -/
def App.handle_duplicate_hosts (hosts : List SshHost) : List SshHost :=
  retainFreshAliases [] hosts

/-- App::load_all_hosts (src/app/host.rs lines 40-57): load the system SSH
config, then the custom hosts, then deduplicate.  The subsequent
update_groups / selection clamping / filter_hosts steps do not modify the
hosts list and are omitted from the model. -/
def App.load_all_hosts (hosts : List SshHost) (sshConfig : Option String)
    (reachable : String → Nat → Bool) (hostsFile : Option String)
    (parseToml : String → Except String HostsConfig) : Except String (List SshHost) := do
  let h1 ← App.load_ssh_config hosts sshConfig reachable
  let h2 ← App.load_custom_hosts h1 (ConfigManager.load_hosts hostsFile parseToml)
  pure (App.handle_duplicate_hosts h2)

/-! ## SSH session worker (src/app_event.rs, src/app/state.rs) -/

/-- SshEvent from src/app_event.rs. -/
inductive SshEvent where
  | Connecting
  | Connected
  | Error (msg : String)
  | Disconnected
deriving DecidableEq

/-- The captured output of the probe `ssh ... exit` command
(std::process::Output as far as the source inspects it). -/
structure ProbeOutput where
  success : Bool
  stderr : String
deriving DecidableEq

/-- App::test_ssh_connection (src/app/state.rs lines 256-294).  `probe` is the
outcome of spawning the probe command: `.error` for a spawn failure (whose
anyhow context message the source would surface) and `.ok` for a captured
output.  A non-success exit yields the error message built from the trimmed
stderr. -/
def App.test_ssh_connection (probe : Except String ProbeOutput) : Except String Unit :=
  match probe with
  | .error _ => .error "Failed to test SSH connection"
  | .ok out =>
    if out.success then .ok ()
    else .error ("SSH connection test failed: " ++ strTrim out.stderr)

/-- The observable behaviour of one run of App::ssh_thread_worker: the events
sent over the channel, in send order, and whether execute_ssh_blocking ran
(i.e. whether the Executing phase was entered). -/
structure WorkerRun where
  events : List SshEvent
  executed : Bool
deriving DecidableEq

/-- App::ssh_thread_worker (src/app/state.rs lines 211-253).  `probe` is the
probe-command outcome fed to test_ssh_connection; `session` is the outcome of
execute_ssh_blocking (the interactive `ssh` child's exit).  Channel sends are
modelled as succeeding (a failed send only truncates the observed trace, it
never reorders or extends it, because the channel is single-producer
single-consumer and FIFO). -/
def App.ssh_thread_worker (probe : Except String ProbeOutput)
    (session : Except String Unit) : WorkerRun :=
  match App.test_ssh_connection probe with
  | .ok _ =>
    match session with
    | .ok _ => { events := [.Connecting, .Connected, .Disconnected], executed := true }
    | .error e => { events := [.Connecting, .Connected, .Error e], executed := true }
  | .error e =>
    { events := [.Connecting, .Error ("Connection test failed: " ++ e)], executed := false }

/-! ## Main-loop connect guard (src/main.rs, src/app/keymap.rs) -/

/-- The fields of App (src/app/types.rs) that govern the connect guard of the
main loop, plus a ghost counter of `thread::spawn` calls. -/
structure AppLoopState where
  is_connecting : Bool
  ssh_ready_for_terminal : Bool
  has_ssh_receiver : Bool
  has_selected_host : Bool
  workers_spawned : Nat
deriving DecidableEq

/-- App::handle_key_enter (src/app/keymap.rs lines 40-69): when a host is
selected, install a fresh channel, set the connecting flags and spawn the SSH
worker thread (counted by `workers_spawned`). -/
def App.handle_key_enter (s : AppLoopState) : AppLoopState :=
  if s.has_selected_host then
    { s with has_ssh_receiver := true, is_connecting := true,
             ssh_ready_for_terminal := false,
             workers_spawned := s.workers_spawned + 1 }
  else s

/-- The flag updates of App::process_ssh_events (src/app/state.rs lines
333-379) when `try_recv` yields event `e`; without a receiver nothing
happens. -/
def App.process_ssh_event (s : AppLoopState) (e : SshEvent) : AppLoopState :=
  if s.has_ssh_receiver then
    match e with
    | .Connecting => s
    | .Connected => { s with ssh_ready_for_terminal := true }
    | .Error _ =>
      { s with is_connecting := false, ssh_ready_for_terminal := false,
               has_ssh_receiver := false }
    | .Disconnected =>
      { s with is_connecting := false, ssh_ready_for_terminal := false,
               has_ssh_receiver := false }
  else s

/-- One observable input of the main loop, for the connect-guard model:
an Enter key press, or an SSH worker event drained from the channel. -/
inductive LoopInput where
  | keyEnter
  | sshEvent (e : SshEvent)
deriving DecidableEq

/-- One step of run_app (src/main.rs lines 117-201) restricted to the
connect-relevant inputs: key events are dispatched only when
`!app.is_connecting && !app.ssh_ready_for_terminal` (lines 171-180), and
worker events update the flags via process_ssh_events. -/
def run_app_step (s : AppLoopState) (i : LoopInput) : AppLoopState :=
  match i with
  | .keyEnter =>
    if !s.is_connecting && !s.ssh_ready_for_terminal then App.handle_key_enter s else s
  | .sshEvent e => App.process_ssh_event s e

/-- Whether a loop input is a terminal worker event (Error or Disconnected). -/
def LoopInput.isTerminalEvent : LoopInput → Bool
  | .sshEvent (.Error _) => true
  | .sshEvent .Disconnected => true
  | _ => false

/-! ## SFTP listings and navigation (src/sftp_logic/) -/

/-- FileItem from src/sftp_logic/types.rs. -/
inductive FileItem where
  | Directory (name : String)
  | File (name : String) (size : Nat)
deriving DecidableEq

/-- The comparator passed to `items.sort_by` in read_local_directory
(src/sftp_logic/local.rs lines 99-117) and read_remote_directory
(src/sftp_logic/remote.rs lines 166-184): a `".."` directory first, then
directories before files, each group ordered by `String::cmp` of names. -/
def listingCmp (a b : FileItem) : Ordering :=
  match a, b with
  | .Directory name_a, .Directory name_b =>
    if name_a = ".." then .lt
    else if name_b = ".." then .gt
    else strCmp name_a name_b
  | .Directory _, .File _ _ => .lt
  | .File _ _, .Directory _ => .gt
  | .File name_a _, .File name_b _ => strCmp name_a name_b

/-- The boolean "less or equal" induced by `listingCmp`; Rust's stable
`sort_by` with a comparator is embedded as the stable `List.mergeSort` with
this relation. -/
def listingLe (a b : FileItem) : Bool := listingCmp a b != Ordering.gt

/-- One entry as returned by `fs::read_dir` (src/sftp_logic/local.rs lines
81-96): file name, directory flag and size from the metadata.  `read_dir`
never yields the `"."` or `".."` entries. -/
structure RawEntry where
  name : String
  is_dir : Bool
  size : Nat
deriving DecidableEq

/-- The unsorted item list built by read_local_directory (src/sftp_logic/
local.rs lines 71-96): a synthetic `".."` first when the path has a parent,
then the raw entries in read order. -/
def localListingItems (hasParent : Bool) (entries : List RawEntry) : List FileItem :=
  (if hasParent then [FileItem.Directory ".."] else []) ++
    entries.map fun e =>
      if e.is_dir then FileItem.Directory e.name else FileItem.File e.name e.size

/-- read_local_directory (src/sftp_logic/local.rs lines 71-120): build the
items then sort them with the listing comparator. -/
def read_local_directory (hasParent : Bool) (entries : List RawEntry) : List FileItem :=
  (localListingItems hasParent entries).mergeSort listingLe

/-- The body of the `ls -la` parsing loop of read_remote_directory
(src/sftp_logic/remote.rs lines 140-163) for one output line. -/
def lsLineStep (items : List FileItem) (line : String) : List FileItem :=
  let parts := strSplitWhitespace line
  if parts.length < 9 then items
  else
    let permissions := parts.getD 0 ""
    let file_name := strJoin ' ' (parts.drop 8)
    if file_name = "." ∨ file_name = ".." then items
    else if strStartsWith permissions "d" then items ++ [FileItem.Directory file_name]
    else items ++ [FileItem.File file_name ((parseU64 (parts.getD 4 "")).getD 0)]

/-- The unsorted item list built by read_remote_directory (src/sftp_logic/
remote.rs lines 130-163) from the captured stdout of the remote
`ls -la`: a synthetic `".."` first when not at the remote root, then the
parsed lines after skipping the `total` line. -/
def remoteListingItems (remote_path : String) (stdout : String) : List FileItem :=
  ((strLines stdout).drop 1).foldl lsLineStep
    (if remote_path ≠ "/" then [FileItem.Directory ".."] else [])

/-- read_remote_directory (src/sftp_logic/remote.rs lines 105-187).
`stdoutRes` is the outcome of the `ssh ... ls -la` invocation: `.error` for a
spawn failure or a non-zero exit (with its message), `.ok` for the captured
stdout.  The parsed items are sorted with the listing comparator. -/
def read_remote_directory (remote_path : String) (stdoutRes : Except String String) :
    Except String (List FileItem) :=
  match stdoutRes with
  | .error e => .error e
  | .ok stdout => .ok ((remoteListingItems remote_path stdout).mergeSort listingLe)

/-- The panel-relevant fields of AppSftpState (src/sftp_logic/types.rs).
`local_current_path` embeds the `PathBuf` of an absolute local path as its
list of components (the root `/` is `[]`); UI-only fields (list states,
status message, connection parameters, progress senders) are omitted. -/
structure AppSftpState where
  local_current_path : List String
  local_files : List FileItem
  local_selected : Nat
  remote_current_path : String
  remote_files : List FileItem
  remote_selected : Nat
deriving DecidableEq

/-- AppSftpState::refresh_local (src/sftp_logic/local.rs lines 8-14).
`fsEntries` is the outcome of the `fs::read_dir` walk at the current local
path.  On error the `?` aborts before any field is assigned; on success the
listing is replaced and the selection clamped (`usize::saturating_sub`
coincides with `Nat` subtraction). -/
def AppSftpState.refresh_local (s : AppSftpState)
    (fsEntries : Except String (List RawEntry)) : Except String AppSftpState :=
  match fsEntries with
  | .error e => .error e
  | .ok entries =>
    let files := read_local_directory (!s.local_current_path.isEmpty) entries
    let sel := if s.local_selected ≥ files.length then files.length - 1 else s.local_selected
    .ok { s with local_files := files, local_selected := sel }

/-- AppSftpState::refresh_remote (src/sftp_logic/remote.rs lines 7-20).
`stdoutRes` is the outcome of the remote `ls -la` at the current remote path
(the status-message bookkeeping is omitted with the field). -/
def AppSftpState.refresh_remote (s : AppSftpState)
    (stdoutRes : Except String String) : Except String AppSftpState :=
  match read_remote_directory s.remote_current_path stdoutRes with
  | .error e => .error e
  | .ok files =>
    let sel := if s.remote_selected ≥ files.length then files.length - 1 else s.remote_selected
    .ok { s with remote_files := files, remote_selected := sel }

/-- AppSftpState::navigate_local_up (src/sftp_logic/local.rs lines 17-24). -/
def AppSftpState.navigate_local_up (s : AppSftpState) : AppSftpState :=
  if s.local_selected > 0 then { s with local_selected := s.local_selected - 1 }
  else if !s.local_files.isEmpty then { s with local_selected := s.local_files.length - 1 }
  else s

/-- AppSftpState::navigate_local_down (src/sftp_logic/local.rs lines 27-34). -/
def AppSftpState.navigate_local_down (s : AppSftpState) : AppSftpState :=
  if s.local_selected < s.local_files.length - 1 then
    { s with local_selected := s.local_selected + 1 }
  else { s with local_selected := 0 }

/-- AppSftpState::navigate_remote_up (src/sftp_logic/remote.rs lines 23-30). -/
def AppSftpState.navigate_remote_up (s : AppSftpState) : AppSftpState :=
  if s.remote_selected > 0 then { s with remote_selected := s.remote_selected - 1 }
  else if !s.remote_files.isEmpty then { s with remote_selected := s.remote_files.length - 1 }
  else s

/-- AppSftpState::navigate_remote_down (src/sftp_logic/remote.rs lines 33-40). -/
def AppSftpState.navigate_remote_down (s : AppSftpState) : AppSftpState :=
  if s.remote_selected < s.remote_files.length - 1 then
    { s with remote_selected := s.remote_selected + 1 }
  else { s with remote_selected := 0 }

/-- PathBuf::parent for an absolute path embedded as components: the root has
no parent, otherwise drop the last component. -/
def pathParent : List String → Option (List String)
  | [] => none
  | l => some l.dropLast

/-- AppSftpState::open_local_selected (src/sftp_logic/local.rs lines 37-58).
Selecting `".."` moves to the parent when one exists; selecting another
directory appends the component (`PathBuf::join` with a normal single
component); files are a no-op.  `fsEntries` feeds the refresh that follows a
path change.  On a refresh error the source leaves the already-assigned path
in `self`; the model only exposes the error. -/
def AppSftpState.open_local_selected (s : AppSftpState)
    (fsEntries : Except String (List RawEntry)) : Except String AppSftpState :=
  match s.local_files.get? s.local_selected with
  | some (FileItem.Directory name) =>
    let newPath :=
      if name = ".." then
        match pathParent s.local_current_path with
        | some parent => parent
        | none => s.local_current_path
      else s.local_current_path ++ [name]
    AppSftpState.refresh_local
      { s with local_current_path := newPath, local_selected := 0 } fsEntries
  | _ => .ok s

/-- The parent-path string manipulation of open_remote_selected
(src/sftp_logic/remote.rs lines 49-62): strip trailing slashes, split at
`'/'`, and when more than one part remains pop the last one, collapsing to
`"/"` when a single part remains. -/
def remoteParentPath (p : String) : String :=
  let path_parts := splitChar (trimEndMatchesChar p '/') '/'
  if path_parts.length > 1 then
    let parts := path_parts.dropLast
    if parts.length = 1 then "/" else strJoin '/' parts
  else p

/-- AppSftpState::open_remote_selected (src/sftp_logic/remote.rs lines 43-81).
Selecting `".."` applies the parent manipulation unless already at `"/"`;
selecting another directory appends it with a slash separator; files are a
no-op.  `stdoutRes` feeds the refresh that follows a path change. -/
def AppSftpState.open_remote_selected (s : AppSftpState)
    (stdoutRes : Except String String) : Except String AppSftpState :=
  match s.remote_files.get? s.remote_selected with
  | some (FileItem.Directory name) =>
    let newPath :=
      if name = ".." then
        if s.remote_current_path ≠ "/" then remoteParentPath s.remote_current_path
        else s.remote_current_path
      else
        if strEndsWithChar s.remote_current_path '/' then s.remote_current_path ++ name
        else s.remote_current_path ++ "/" ++ name
    AppSftpState.refresh_remote
      { s with remote_current_path := newPath, remote_selected := 0 } stdoutRes
  | _ => .ok s

/-! ## Transfer progress protocol (src/sftp_logic/transfer.rs) -/

/-- The progress callbacks issued by the read/write loop of sftp_upload
(src/sftp_logic/transfer.rs lines 163-182), starting from `uploaded` bytes
already written: `chunks` lists the successive nonzero byte counts returned
by `file.read` (the loop breaks on a zero read, before any callback).  Each
report is `(bytes_done, bytes_total)`. -/
def uploadReportsFrom (total uploaded : Nat) : List Nat → List (Nat × Nat)
  | [] => []
  | c :: cs => (uploaded + c, total) :: uploadReportsFrom total (uploaded + c) cs

/-- The full sequence of progress callbacks of one sftp_upload run
(src/sftp_logic/transfer.rs lines 127-197): the loop starts with zero bytes
uploaded and `total_size` taken from the local file metadata. -/
def sftp_upload_reports (total_size : Nat) (chunks : List Nat) : List (Nat × Nat) :=
  uploadReportsFrom total_size 0 chunks

/-- The monitor loop of sftp_download (src/sftp_logic/transfer.rs lines
292-336): at each poll the current size of the growing local file is
observed, and a callback fires only when it exceeds `last_size`. -/
def downloadMonitorReports (total last_size : Nat) : List Nat → List (Nat × Nat)
  | [] => []
  | o :: os =>
    if o > last_size then (o, total) :: downloadMonitorReports total o os
    else downloadMonitorReports total last_size os

/-- The full sequence of progress callbacks of one sftp_download run
(src/sftp_logic/transfer.rs lines 200-342): the initial `(0, total)` report,
the monitor reports over the observed file sizes, and the final
`(total, total)` report on success; on failure the function returns before
the final callback. -/
def sftp_download_reports (total_size : Nat) (observed : List Nat) (success : Bool) :
    List (Nat × Nat) :=
  (0, total_size) :: downloadMonitorReports total_size 0 observed ++
    (if success then [(total_size, total_size)] else [])

/-! ## Specification-side listing order

The following definitions follow the specification's words ("`..` (if
present) sorts first, then all directories (alphabetical), then all files
(alphabetical)"), to be compared with the comparator taken from the source. -/

/-- The name carried by a listing item. -/
def itemName : FileItem → String
  | .Directory n => n
  | .File n _ => n

/-- Rank of an item in the spec's required order: the `".."` entry first,
then directories, then files. -/
def specRank : FileItem → Nat
  | .Directory name => if name = ".." then 0 else 1
  | .File _ _ => 2

/-- The ordering the specification requires of a sorted listing: strictly
increasing rank, or equal rank and alphabetically non-decreasing names. -/
def specListingLe (a b : FileItem) : Prop :=
  specRank a < specRank b ∨
    (specRank a = specRank b ∧ lexCmp (itemName a).data (itemName b).data ≠ .gt)

/-! ## Concrete scenario inputs used by the claims -/

/-- The system SSH config of the spec's merge scenario:
`Host web1 / HostName 10.0.0.1 / User ubuntu`. -/
def c1SysConfig : String := "Host web1\n  HostName 10.0.0.1\n  User ubuntu"

/-- The custom host of the spec's merge scenario: alias `web1`, address
`10.0.0.1`, user `admin`, in group `Prod`. -/
def c1CustomHost : SshHost :=
  { aliasName := "web1", host := "10.0.0.1", user := "admin",
    port := some 22, description := none, group := none }

/-- The parsed custom hosts file of the merge scenario: group "Prod"
containing `c1CustomHost`. -/
def c1HostsToml : HostsConfig :=
  { groups := [{ name := "Prod", description := none, hosts := [c1CustomHost] }] }

/-- The system-parsed `web1` host after the reachability pass, as a function
of the resolution oracle. -/
def c1SystemWeb1 (reachable : String → Nat → Bool) : SshHost :=
  { aliasName := "web1", host := "10.0.0.1", user := "ubuntu", port := some 22,
    description := some (if reachable "10.0.0.1" 22 then "Reachable" else "Unreachable"),
    group := none }

/-- A TOML parser outcome for a malformed hosts file. -/
def c9BadParse : String → Except String HostsConfig := fun _ => .error "expected a table"

/-- The raw directory entries of the spec's sort-invariant example:
`b.txt` and `c.txt` are files, `a_dir` a directory. -/
def c7Entries : List RawEntry :=
  [{ name := "b.txt", is_dir := false, size := 3 },
   { name := "a_dir", is_dir := true, size := 0 },
   { name := "c.txt", is_dir := false, size := 5 }]

/-- Witness state for the navigation claims: a local panel at `/a` with one
subdirectory selected, and a remote panel at the remote root with one
directory selected. -/
def w8Start : AppSftpState :=
  { local_current_path := ["a"], local_files := [FileItem.Directory "sub"],
    local_selected := 0,
    remote_current_path := "/", remote_files := [FileItem.Directory "pub"],
    remote_selected := 0 }

/-- The state after entering `sub` on the local panel of `w8Start` with an
empty directory read. -/
def w8LocalIn : AppSftpState :=
  { w8Start with local_current_path := ["a", "sub"],
                 local_files := [FileItem.Directory ".."], local_selected := 0 }

/-- The state after selecting `".."` from `w8LocalIn` with an empty directory
read: back at `/a` (whose listing again synthesizes `".."`). -/
def w8LocalBack : AppSftpState :=
  { w8LocalIn with local_current_path := ["a"],
                   local_files := [FileItem.Directory ".."], local_selected := 0 }

/-- The state after entering `pub` on the remote panel of `w8Start` with an
empty `ls` output. -/
def w8RemoteIn : AppSftpState :=
  { w8Start with remote_current_path := "/pub",
                 remote_files := [FileItem.Directory ".."], remote_selected := 0 }

/-- The state after selecting `".."` from `w8RemoteIn` with an empty `ls`
output: back at the remote root. -/
def w8RemoteBack : AppSftpState :=
  { w8RemoteIn with remote_current_path := "/", remote_files := [], remote_selected := 0 }

/-- Witness state at the remote root with the (never synthesized at root, but
selectable in principle) `".."` entry selected. -/
def w8Root : AppSftpState :=
  { local_current_path := ["a"], local_files := [], local_selected := 0,
    remote_current_path := "/", remote_files := [FileItem.Directory ".."],
    remote_selected := 0 }

/-- The state after selecting `".."` at the remote root of `w8Root` with an
empty `ls` output: the path stays `"/"`. -/
def w8RootAfter : AppSftpState := { w8Root with remote_files := [], remote_selected := 0 }

/-! ## Lemmas about the comparison functions -/

theorem cmpNat_self (a : Nat) : cmpNat a a = .eq := by simp [cmpNat]

theorem cmpNat_lt_iff (a b : Nat) : cmpNat a b = .lt ↔ a < b := by
  unfold cmpNat; split <;> [skip; split] <;> simp <;> omega

theorem cmpNat_gt_iff (a b : Nat) : cmpNat a b = .gt ↔ b < a := by
  unfold cmpNat; split <;> [skip; split] <;> simp <;> omega

theorem cmpNat_eq_iff (a b : Nat) : cmpNat a b = .eq ↔ a = b := by
  unfold cmpNat; split <;> [skip; split] <;> simp <;> omega

theorem cmpNat_swap (a b : Nat) : cmpNat b a = (cmpNat a b).swap := by
  unfold cmpNat
  rcases Nat.lt_trichotomy a b with h | h | h <;>
    simp [Nat.lt_asymm, h, Nat.lt_irrefl, Ordering.swap]

theorem lexCmp_self (l : List Char) : lexCmp l l = .eq := by
  induction l with
  | nil => rfl
  | cons a t ih => simp [lexCmp, cmpNat_self, ih]

theorem lexCmp_swap (l1 l2 : List Char) : lexCmp l2 l1 = (lexCmp l1 l2).swap := by
  induction l1 generalizing l2 with
  | nil => cases l2 <;> rfl
  | cons a t ih =>
    cases l2 with
    | nil => rfl
    | cons b u =>
      simp only [lexCmp, cmpNat_swap a.toNat b.toNat]
      cases h : cmpNat a.toNat b.toNat <;> simp [Ordering.swap, ih]

theorem lexCmp_le_trans {l1 l2 l3 : List Char} (h1 : lexCmp l1 l2 ≠ .gt)
    (h2 : lexCmp l2 l3 ≠ .gt) : lexCmp l1 l3 ≠ .gt := by
  induction l1 generalizing l2 l3 with
  | nil => cases l3 <;> simp [lexCmp]
  | cons a t ih =>
    cases l2 with
    | nil => simp [lexCmp] at h1
    | cons b u =>
      cases l3 with
      | nil => simp [lexCmp] at h2
      | cons c v =>
        simp only [lexCmp] at h1 h2 ⊢
        cases hab : cmpNat a.toNat b.toNat <;> rw [hab] at h1 <;>
            cases hbc : cmpNat b.toNat c.toNat <;> rw [hbc] at h2
        · have hac : cmpNat a.toNat c.toNat = .lt := by
            rw [cmpNat_lt_iff]
            exact Nat.lt_trans ((cmpNat_lt_iff _ _).1 hab) ((cmpNat_lt_iff _ _).1 hbc)
          rw [hac]; simp
        · have hac : cmpNat a.toNat c.toNat = .lt := by
            rw [cmpNat_lt_iff, ← (cmpNat_eq_iff _ _).1 hbc]
            exact (cmpNat_lt_iff _ _).1 hab
          rw [hac]; simp
        · exact absurd rfl h2
        · have hac : cmpNat a.toNat c.toNat = .lt := by
            rw [cmpNat_lt_iff, (cmpNat_eq_iff _ _).1 hab]
            exact (cmpNat_lt_iff _ _).1 hbc
          rw [hac]; simp
        · have hac : cmpNat a.toNat c.toNat = .eq := by
            rw [cmpNat_eq_iff, (cmpNat_eq_iff _ _).1 hab]
            exact (cmpNat_eq_iff _ _).1 hbc
          rw [hac]
          exact ih h1 h2
        · exact absurd rfl h2
        · exact absurd rfl h1
        · exact absurd rfl h1
        · exact absurd rfl h1

theorem lexCmp_le_total (l1 l2 : List Char) :
    lexCmp l1 l2 ≠ .gt ∨ lexCmp l2 l1 ≠ .gt := by
  by_cases h : lexCmp l1 l2 = .gt
  · right
    rw [lexCmp_swap l1 l2, h]
    simp [Ordering.swap]
  · exact Or.inl h

theorem bne_gt_iff (o : Ordering) : (o != Ordering.gt) = true ↔ o ≠ Ordering.gt := by
  cases o <;> simp [bne] <;> rfl

/-- The source comparator's "less or equal" coincides with the ordering that
the specification's sort invariant describes. -/
theorem listingLe_iff_spec (a b : FileItem) :
    listingLe a b = true ↔ specListingLe a b := by
  cases a with
  | Directory na =>
    cases b with
    | Directory nb =>
      by_cases ha : na = ".." <;> by_cases hb : nb = ".." <;>
        simp [listingLe, listingCmp, specListingLe, specRank, itemName, ha, hb,
          strCmp, lexCmp_self, bne_gt_iff]
    | File nb sb =>
      by_cases ha : na = ".." <;>
        simp [listingLe, listingCmp, specListingLe, specRank, itemName, ha, bne_gt_iff]
  | File na sa =>
    cases b with
    | Directory nb =>
      by_cases hb : nb = ".." <;>
        simp [listingLe, listingCmp, specListingLe, specRank, itemName, hb, bne_gt_iff]
    | File nb sb =>
      simp [listingLe, listingCmp, specListingLe, specRank, itemName, strCmp, bne_gt_iff]

theorem listingLe_trans (a b c : FileItem) (h1 : listingLe a b = true)
    (h2 : listingLe b c = true) : listingLe a c = true := by
  rw [listingLe_iff_spec] at h1 h2 ⊢
  rcases h1 with h1 | ⟨h1, h1l⟩ <;> rcases h2 with h2 | ⟨h2, h2l⟩
  · exact Or.inl (Nat.lt_trans h1 h2)
  · exact Or.inl (h2 ▸ h1)
  · exact Or.inl (h1 ▸ h2)
  · exact Or.inr ⟨h1.trans h2, lexCmp_le_trans h1l h2l⟩

theorem listingLe_total (a b : FileItem) : (listingLe a b || listingLe b a) = true := by
  rcases Nat.lt_trichotomy (specRank a) (specRank b) with h | h | h
  · simp [listingLe_iff_spec, specListingLe, h]
  · rcases lexCmp_le_total (itemName a).data (itemName b).data with hl | hl <;>
      simp [listingLe_iff_spec, specListingLe, h, hl]
  · simp [listingLe_iff_spec b a, specListingLe, h]

/-- Both listing readers produce a permutation of the items they build, in the
order the specification describes. -/
theorem read_local_directory_sorted (hasParent : Bool) (entries : List RawEntry) :
    (read_local_directory hasParent entries).Pairwise specListingLe := by
  have h := @List.sorted_mergeSort FileItem listingLe listingLe_trans listingLe_total
    (localListingItems hasParent entries)
  exact h.imp fun hab => (listingLe_iff_spec _ _).1 hab

theorem read_local_directory_perm (hasParent : Bool) (entries : List RawEntry) :
    (read_local_directory hasParent entries).Perm (localListingItems hasParent entries) :=
  List.mergeSort_perm _ _

theorem remote_listing_sorted (remote_path : String) (stdout : String) :
    ((remoteListingItems remote_path stdout).mergeSort listingLe).Pairwise specListingLe := by
  have h := @List.sorted_mergeSort FileItem listingLe listingLe_trans listingLe_total
    (remoteListingItems remote_path stdout)
  exact h.imp fun hab => (listingLe_iff_spec _ _).1 hab

/-! ## Lemmas about the first-occurrence-wins alias filter -/

theorem mem_retainFreshAliases {seen : List String} {l : List SshHost} {h : SshHost}
    (hm : h ∈ retainFreshAliases seen l) : h.aliasName ∉ seen := by
  induction l generalizing seen with
  | nil => simp [retainFreshAliases] at hm
  | cons x t ih =>
    by_cases hx : x.aliasName ∈ seen
    · rw [retainFreshAliases, if_pos hx] at hm
      exact ih hm
    · rw [retainFreshAliases, if_neg hx] at hm
      rcases List.mem_cons.1 hm with rfl | hm2
      · exact hx
      · exact fun hc => ih hm2 (List.mem_cons_of_mem _ hc)

theorem nodup_retainFreshAliases (seen : List String) (l : List SshHost) :
    ((retainFreshAliases seen l).map (fun h => h.aliasName)).Nodup := by
  induction l generalizing seen with
  | nil => simp [retainFreshAliases]
  | cons x t ih =>
    by_cases hx : x.aliasName ∈ seen
    · rw [retainFreshAliases, if_pos hx]
      exact ih seen
    · rw [retainFreshAliases, if_neg hx]
      simp only [List.map_cons, List.nodup_cons]
      refine ⟨fun hc => ?_, ih _⟩
      rcases List.mem_map.1 hc with ⟨y, hy, hyeq⟩
      exact mem_retainFreshAliases hy (hyeq ▸ List.mem_cons_self _ _)

theorem filter_retainFreshAliases_of_seen {a : String} {seen : List String}
    (l : List SshHost) (ha : a ∈ seen) :
    (retainFreshAliases seen l).filter (fun h => h.aliasName == a) = [] := by
  induction l generalizing seen with
  | nil => rfl
  | cons x t ih =>
    by_cases hx : x.aliasName ∈ seen
    · rw [retainFreshAliases, if_pos hx]
      exact ih ha
    · rw [retainFreshAliases, if_neg hx]
      have hne : (x.aliasName == a) = false := by
        simp only [beq_eq_false_iff_ne]
        exact fun he => hx (he ▸ ha)
      rw [List.filter_cons_of_neg (by simp [hne])]
      exact ih (List.mem_cons_of_mem _ ha)

theorem filter_retainFreshAliases_of_fresh {a : String} {seen : List String}
    (l : List SshHost) (ha : a ∉ seen) :
    (retainFreshAliases seen l).filter (fun h => h.aliasName == a) =
      (l.filter (fun h => h.aliasName == a)).take 1 := by
  induction l generalizing seen with
  | nil => rfl
  | cons x t ih =>
    by_cases hx : x.aliasName ∈ seen
    · have hne : (x.aliasName == a) = false := by
        simp only [beq_eq_false_iff_ne]
        exact fun he => ha (he ▸ hx)
      rw [retainFreshAliases, if_pos hx, List.filter_cons_of_neg (by simp [hne]), ih ha]
    · rw [retainFreshAliases, if_neg hx]
      by_cases hax : x.aliasName = a
      · have hpos : (x.aliasName == a) = true := by simp [hax]
        rw [List.filter_cons_of_pos (by simp [hpos]),
          List.filter_cons_of_pos (by simp [hpos]),
          filter_retainFreshAliases_of_seen t (by simp [hax])]
        simp
      · have hne : (x.aliasName == a) = false := by simp [hax]
        rw [List.filter_cons_of_neg (by simp [hne]), List.filter_cons_of_neg (by simp [hne])]
        refine ih ?_
        simp only [List.mem_cons, not_or]
        exact ⟨fun he => hax he.symm, ha⟩

/-! ## Lemmas about the main-loop connect guard -/

theorem run_app_steps_guarded (s : AppLoopState) (inputs : List LoopInput)
    (hc : s.is_connecting = true)
    (ht : ∀ i ∈ inputs, i.isTerminalEvent = false) :
    (inputs.foldl run_app_step s).is_connecting = true ∧
      (inputs.foldl run_app_step s).workers_spawned = s.workers_spawned := by
  induction inputs generalizing s with
  | nil => exact ⟨hc, rfl⟩
  | cons i t ih =>
    have hstep : (run_app_step s i).is_connecting = true ∧
        (run_app_step s i).workers_spawned = s.workers_spawned := by
      cases i with
      | keyEnter => simp [run_app_step, hc]
      | sshEvent e =>
        cases e with
        | Connecting =>
          simp only [run_app_step, App.process_ssh_event]
          split <;> simp [hc]
        | Connected =>
          simp only [run_app_step, App.process_ssh_event]
          split <;> simp [hc]
        | Error m => exact absurd (ht _ (List.mem_cons_self _ _)) (by simp [LoopInput.isTerminalEvent])
        | Disconnected => exact absurd (ht _ (List.mem_cons_self _ _)) (by simp [LoopInput.isTerminalEvent])
    rw [List.foldl_cons]
    rcases ih (run_app_step s i) hstep.1 (fun j hj => ht j (List.mem_cons_of_mem _ hj)) with ⟨h1, h2⟩
    exact ⟨h1, h2.trans hstep.2⟩

/-! ## Lemmas about transfer progress -/

theorem chain_uploadReportsFrom (total : Nat) :
    ∀ (chunks : List Nat) (uploaded : Nat),
      List.Chain (fun a b : Nat × Nat => a.1 ≤ b.1) (uploaded, total)
        (uploadReportsFrom total uploaded chunks)
  | [], _ => List.Chain.nil
  | c :: cs, uploaded =>
    List.Chain.cons (Nat.le_add_right _ _) (chain_uploadReportsFrom total cs (uploaded + c))

theorem getLast?_uploadReportsFrom (total : Nat) :
    ∀ (chunks : List Nat) (uploaded : Nat), chunks ≠ [] →
      (uploadReportsFrom total uploaded chunks).getLast? =
        some (uploaded + chunks.sum, total)
  | [], _, h => absurd rfl h
  | [c], uploaded, _ => by simp [uploadReportsFrom]
  | c :: c2 :: cs, uploaded, _ => by
    have hrec := getLast?_uploadReportsFrom total (c2 :: cs) (uploaded + c) (by simp)
    have hsh : uploadReportsFrom total uploaded (c :: c2 :: cs) =
        (uploaded + c, total) :: (uploaded + c + c2, total) ::
          uploadReportsFrom total (uploaded + c + c2) cs := rfl
    have hsnd : uploadReportsFrom total (uploaded + c) (c2 :: cs) =
        (uploaded + c + c2, total) :: uploadReportsFrom total (uploaded + c + c2) cs := rfl
    rw [hsh, List.getLast?_cons_cons, ← hsnd, hrec]
    have harith : uploaded + c + (c2 :: cs).sum = uploaded + (c :: c2 :: cs).sum := by
      simp only [List.sum_cons]
      omega
    rw [harith]

theorem mem_downloadMonitorReports (total : Nat) :
    ∀ (obs : List Nat) (last_size : Nat) (r : Nat × Nat),
      r ∈ downloadMonitorReports total last_size obs → r.1 ∈ obs ∧ r.2 = total
  | [], _, r, hr => absurd hr (by simp [downloadMonitorReports])
  | o :: os, last_size, r, hr => by
    rw [downloadMonitorReports] at hr
    by_cases h : o > last_size
    · rw [if_pos h] at hr
      rcases List.mem_cons.1 hr with rfl | hr2
      · exact ⟨List.mem_cons_self _ _, rfl⟩
      · have := mem_downloadMonitorReports total os o r hr2
        exact ⟨List.mem_cons_of_mem _ this.1, this.2⟩
    · rw [if_neg h] at hr
      have := mem_downloadMonitorReports total os last_size r hr
      exact ⟨List.mem_cons_of_mem _ this.1, this.2⟩

theorem chain_downloadMonitorReports (total : Nat) :
    ∀ (obs : List Nat) (last_size : Nat),
      List.Chain (fun a b : Nat × Nat => a.1 ≤ b.1) (last_size, total)
        (downloadMonitorReports total last_size obs)
  | [], _ => List.Chain.nil
  | o :: os, last_size => by
    rw [downloadMonitorReports]
    by_cases h : o > last_size
    · rw [if_pos h]
      exact List.Chain.cons (Nat.le_of_lt h) (chain_downloadMonitorReports total os o)
    · rw [if_neg h]
      exact chain_downloadMonitorReports total os last_size

theorem chain_downloadMonitorReports_final (total : Nat) :
    ∀ (obs : List Nat) (last_size : Nat), last_size ≤ total → (∀ o ∈ obs, o ≤ total) →
      List.Chain (fun a b : Nat × Nat => a.1 ≤ b.1) (last_size, total)
        (downloadMonitorReports total last_size obs ++ [(total, total)])
  | [], _, hl, _ => List.Chain.cons hl List.Chain.nil
  | o :: os, last_size, hl, ho => by
    rw [downloadMonitorReports]
    by_cases h : o > last_size
    · rw [if_pos h, List.cons_append]
      exact List.Chain.cons (Nat.le_of_lt h)
        (chain_downloadMonitorReports_final total os o (ho o (List.mem_cons_self _ _))
          (fun x hx => ho x (List.mem_cons_of_mem _ hx)))
    · rw [if_neg h]
      exact chain_downloadMonitorReports_final total os last_size hl
        (fun x hx => ho x (List.mem_cons_of_mem _ hx))

/-! ## Lemmas about the remote listing parser -/

theorem lsLineStep_no_parent {items : List FileItem}
    (h : FileItem.Directory ".." ∉ items) (line : String) :
    FileItem.Directory ".." ∉ lsLineStep items line := by
  unfold lsLineStep
  by_cases h9 : (strSplitWhitespace line).length < 9
  · rw [if_pos h9]; exact h
  · rw [if_neg h9]
    by_cases hskip : strJoin ' ' ((strSplitWhitespace line).drop 8) = "." ∨
        strJoin ' ' ((strSplitWhitespace line).drop 8) = ".."
    · rw [if_pos hskip]; exact h
    · rw [if_neg hskip]
      have hname : strJoin ' ' ((strSplitWhitespace line).drop 8) ≠ ".." :=
        fun he => hskip (Or.inr he)
      by_cases hd : strStartsWith ((strSplitWhitespace line).getD 0 "") "d" = true
      · rw [if_pos hd]
        intro hmem
        rcases List.mem_append.1 hmem with hmem1 | hmem2
        · exact h hmem1
        · rcases List.mem_singleton.1 hmem2 with heq
          exact hname (FileItem.Directory.injEq _ _ ▸ heq ▸ rfl)
      · rw [if_neg hd]
        intro hmem
        rcases List.mem_append.1 hmem with hmem1 | hmem2
        · exact h hmem1
        · simp at hmem2

theorem foldl_lsLineStep_no_parent (lines : List String) (items : List FileItem)
    (h : FileItem.Directory ".." ∉ items) :
    FileItem.Directory ".." ∉ lines.foldl lsLineStep items := by
  induction lines generalizing items with
  | nil => exact h
  | cons line rest ih =>
    rw [List.foldl_cons]
    exact ih _ (lsLineStep_no_parent h line)

/-! ## Lemmas about splitting and joining path strings -/

theorem splitCharList_ne_nil (sep : Char) (l : List Char) : splitCharList sep l ≠ [] := by
  induction l with
  | nil => simp [splitCharList]
  | cons c cs ih =>
    rw [splitCharList]
    by_cases hc : c = sep
    · simp [hc]
    · rw [if_neg hc]
      cases hs : splitCharList sep cs with
      | nil => simp
      | cons t ts => simp

theorem splitCharList_append (sep : Char) (xs ys : List Char) :
    splitCharList sep (xs ++ sep :: ys) = splitCharList sep xs ++ splitCharList sep ys := by
  induction xs with
  | nil =>
    rw [List.nil_append]
    conv_lhs => rw [splitCharList]
    rw [if_pos rfl]
    rfl
  | cons c cs ih =>
    by_cases hc : c = sep
    · subst hc
      rw [List.cons_append, splitCharList, if_pos rfl, ih, splitCharList, if_pos rfl,
        List.cons_append]
    · rw [List.cons_append, splitCharList, if_neg hc, ih]
      cases hs : splitCharList sep cs with
      | nil => exact absurd hs (splitCharList_ne_nil sep cs)
      | cons t ts =>
        rw [splitCharList, if_neg hc, hs]
        simp [List.cons_append]

theorem splitCharList_no_sep (sep : Char) (l : List Char) (h : ∀ c ∈ l, c ≠ sep) :
    splitCharList sep l = [l] := by
  induction l with
  | nil => rfl
  | cons c cs ih =>
    rw [splitCharList, if_neg (h c (List.mem_cons_self _ _)),
      ih (fun x hx => h x (List.mem_cons_of_mem _ hx))]

theorem joinCharList_cons_head (sep c : Char) (t : List Char) (ts : List (List Char)) :
    joinCharList sep ((c :: t) :: ts) = c :: joinCharList sep (t :: ts) := by
  cases ts with
  | nil => rfl
  | cons u us => rfl

theorem joinCharList_splitCharList (sep : Char) (l : List Char) :
    joinCharList sep (splitCharList sep l) = l := by
  induction l with
  | nil => rfl
  | cons c cs ih =>
    by_cases hc : c = sep
    · rw [splitCharList, if_pos hc]
      cases hs : splitCharList sep cs with
      | nil => exact absurd hs (splitCharList_ne_nil _ _)
      | cons t ts =>
        rw [hs] at ih
        rw [show joinCharList sep ([] :: t :: ts) = [] ++ sep :: joinCharList sep (t :: ts)
          from rfl, ih, hc]
        rfl
    · rw [splitCharList, if_neg hc]
      cases hs : splitCharList sep cs with
      | nil => exact absurd hs (splitCharList_ne_nil _ _)
      | cons t ts =>
        rw [hs] at ih
        rw [joinCharList_cons_head, ih]

theorem getLast?_append_right {l l2 : List Char} (h : l2 ≠ []) :
    (l ++ l2).getLast? = l2.getLast? := by
  rw [List.getLast?_append]
  cases hl : l2.getLast? with
  | none => exact absurd (List.getLast?_eq_none_iff.1 hl) h
  | some x => rfl

theorem reverse_dropWhile_eq_self {p : Char → Bool} {l : List Char}
    (h : ∀ x, l.getLast? = some x → p x = false) :
    (l.reverse.dropWhile p).reverse = l := by
  cases hr : l.reverse with
  | nil =>
    have hl : l = [] := by simpa using congrArg List.reverse hr
    simp [hl, List.dropWhile]
  | cons x t =>
    have hx : l.getLast? = some x := by
      rw [← List.head?_reverse, hr]
      rfl
    rw [List.dropWhile_cons, h x hx]
    simp only [Bool.false_eq_true, if_false]
    rw [← hr, List.reverse_reverse]

theorem trimEndMatchesChar_eq_self {s : String} {c : Char}
    (h : ∀ x, s.data.getLast? = some x → x ≠ c) : trimEndMatchesChar s c = s := by
  unfold trimEndMatchesChar
  rw [reverse_dropWhile_eq_self (fun x hx => beq_eq_false_iff_ne.2 (h x hx))]

/-- Joining the mapped-back pieces of a split recovers the original string. -/
theorem strJoin_map_mk (sep : Char) (pieces : List (List Char)) :
    strJoin sep (pieces.map String.mk) = String.mk (joinCharList sep pieces) := by
  unfold strJoin
  rw [List.map_map]
  have : (String.data ∘ String.mk) = id := rfl
  rw [this, List.map_id]

/-- The parent-path manipulation undoes entering a directory, for any current
remote path that is the root or starts with `/` and has no trailing slash,
and any directory name that is nonempty and slash-free. -/
theorem remoteParentPath_of_join (p foo : String)
    (hp : p = "/" ∨ (strStartsWith p "/" = true ∧ strEndsWithChar p '/' = false))
    (hne : foo.data ≠ []) (hsl : ∀ c ∈ foo.data, c ≠ '/') :
    remoteParentPath
      (if strEndsWithChar p '/' then p ++ foo else p ++ "/" ++ foo) = p := by
  have hfoo_last : ∀ x, foo.data.getLast? = some x → x ≠ '/' :=
    fun x hx => hsl x (List.mem_of_mem_getLast? hx)
  rcases hp with rfl | ⟨hstart, hend⟩
  · rw [if_pos (by rfl)]
    have hdata : ("/" ++ foo).data = '/' :: foo.data := by
      rw [String.data_append]
      rfl
    have htrim : trimEndMatchesChar ("/" ++ foo) '/' = "/" ++ foo := by
      refine trimEndMatchesChar_eq_self fun x hx => ?_
      rw [hdata, show ('/' :: foo.data) = ['/'] ++ foo.data from rfl,
        getLast?_append_right hne] at hx
      exact hfoo_last x hx
    unfold remoteParentPath
    rw [htrim]
    unfold splitChar
    rw [hdata, show ('/' :: foo.data) = ([] : List Char) ++ '/' :: foo.data from rfl,
      splitCharList_append, splitCharList_no_sep '/' foo.data hsl]
    simp [splitCharList]
  · have hendF : ¬ (strEndsWithChar p '/' = true) := by
      rw [hend]
      exact Bool.false_ne_true
    rw [if_neg hendF]
    obtain ⟨rest, hrest⟩ : ∃ rest, p.data = '/' :: rest := by
      rcases List.isPrefixOf_iff_prefix.1 hstart with ⟨r, hr⟩
      exact ⟨r, hr.symm⟩
    have hplast : ∀ x, p.data.getLast? = some x → x ≠ '/' := by
      intro x hx hc
      subst hc
      have : (p.data.getLast? == some '/') = false := hend
      rw [hx] at this
      simp at this
    have hdata : (p ++ "/" ++ foo).data = p.data ++ '/' :: foo.data := by
      rw [String.data_append, String.data_append]
      simp
    have htrim : trimEndMatchesChar (p ++ "/" ++ foo) '/' = p ++ "/" ++ foo := by
      refine trimEndMatchesChar_eq_self fun x hx => ?_
      rw [hdata, getLast?_append_right (by simp)] at hx
      rw [show ('/' :: foo.data) = ['/'] ++ foo.data from rfl,
        getLast?_append_right hne] at hx
      exact hfoo_last x hx
    unfold remoteParentPath
    rw [htrim]
    unfold splitChar
    rw [hdata, splitCharList_append, splitCharList_no_sep '/' foo.data hsl]
    have hsplen : 2 ≤ (splitCharList '/' p.data).length := by
      rw [hrest, splitCharList, if_pos rfl]
      have hpos := List.length_pos.2 (splitCharList_ne_nil '/' rest)
      simp only [List.length_cons]
      omega
    have houter : ((splitCharList '/' p.data ++ [foo.data]).map String.mk).length > 1 := by
      simp only [List.length_map, List.length_append, List.length_singleton]
      omega
    rw [if_pos houter]
    have hdrop : ((splitCharList '/' p.data ++ [foo.data]).map String.mk).dropLast =
        (splitCharList '/' p.data).map String.mk := by
      rw [List.map_append]
      simp [List.dropLast_concat]
    rw [hdrop]
    have hinner : ¬ (((splitCharList '/' p.data).map String.mk).length = 1) := by
      simp only [List.length_map]
      omega
    rw [if_neg hinner, strJoin_map_mk, joinCharList_splitCharList]

/-! ## Lemmas about the SFTP state operations -/

theorem pathParent_concat (xs : List String) (x : String) :
    pathParent (xs ++ [x]) = some xs := by
  cases hxs : xs ++ [x] with
  | nil => exact absurd hxs (by simp)
  | cons y ys =>
    show some ((y :: ys).dropLast) = some xs
    rw [← hxs, List.dropLast_concat]

theorem refresh_local_ok_fields {s : AppSftpState} {fsE : Except String (List RawEntry)}
    {s2 : AppSftpState} (h : s.refresh_local fsE = .ok s2) :
    s2.local_current_path = s.local_current_path ∧
      s2.remote_current_path = s.remote_current_path ∧
      s2.local_files = read_local_directory (!s.local_current_path.isEmpty) (fsE.toOption.getD []) := by
  unfold AppSftpState.refresh_local at h
  cases fsE with
  | error e => exact absurd h (by simp)
  | ok entries =>
    injection h with h2
    rw [← h2]
    exact ⟨rfl, rfl, rfl⟩

theorem refresh_remote_ok_fields {s : AppSftpState} {r : Except String String}
    {s2 : AppSftpState} (h : s.refresh_remote r = .ok s2) :
    s2.remote_current_path = s.remote_current_path ∧
      s2.local_current_path = s.local_current_path := by
  unfold AppSftpState.refresh_remote at h
  cases hr : read_remote_directory s.remote_current_path r with
  | error e => rw [hr] at h; exact absurd h (by simp)
  | ok files =>
    rw [hr] at h
    injection h with h2
    rw [← h2]
    exact ⟨rfl, rfl⟩

theorem open_local_selected_enter {s : AppSftpState} {fsE : Except String (List RawEntry)}
    {s1 : AppSftpState} {foo : String}
    (hget : s.local_files.get? s.local_selected = some (FileItem.Directory foo))
    (hne : foo ≠ "..") (h : s.open_local_selected fsE = .ok s1) :
    s1.local_current_path = s.local_current_path ++ [foo] := by
  unfold AppSftpState.open_local_selected at h
  rw [hget] at h
  dsimp only at h
  rw [if_neg hne] at h
  exact (refresh_local_ok_fields h).1

theorem open_remote_selected_enter {s : AppSftpState} {r : Except String String}
    {s1 : AppSftpState} {foo : String}
    (hget : s.remote_files.get? s.remote_selected = some (FileItem.Directory foo))
    (hne : foo ≠ "..") (h : s.open_remote_selected r = .ok s1) :
    s1.remote_current_path =
      (if strEndsWithChar s.remote_current_path '/' then s.remote_current_path ++ foo
       else s.remote_current_path ++ "/" ++ foo) := by
  unfold AppSftpState.open_remote_selected at h
  rw [hget] at h
  dsimp only at h
  rw [if_neg hne] at h
  exact (refresh_remote_ok_fields h).1

/-! ## Claim C1 -/

/-- C1 counterexample: the claim that a custom host overrides a
system-discovered host with the same alias is false on the code.  Loading the
spec's scenario fresh (system `web1` with user `ubuntu`; custom `web1` with
user `admin` in group `Prod`), the registry keeps the system host: the single
`web1` entry has user `ubuntu` and no group, not `admin`/`Prod` — the custom
host was skipped ("System host will be used"). -/
theorem C1_counterexample :
    App.load_all_hosts [] (some c1SysConfig) (fun _ _ => true) (some "hosts.toml")
        (fun _ => .ok c1HostsToml) =
      .ok [c1SystemWeb1 (fun _ _ => true)] ∧
    (c1SystemWeb1 (fun _ _ => true)).user = "ubuntu" ∧
    ¬ ((c1SystemWeb1 (fun _ _ => true)).user = "admin" ∧
       (c1SystemWeb1 (fun _ _ => true)).group = some "Prod") := by
  refine ⟨by decide, rfl, by decide⟩

/-- C1 (amended): on a registry load starting from an empty registry where a
custom-configured host and the system-discovered host `web1` share the alias,
the merged registry contains exactly one `web1` entry and that entry's fields
are the SYSTEM host's fields (user `ubuntu`, no group; description from the
reachability probe); the custom host is skipped.  This holds for every custom
hosts file outcome and every reachability oracle. -/
theorem C1_system_host_wins (tomlRes : Except String HostsConfig)
    (reachable : String → Nat → Bool) :
    ∃ r, App.load_all_hosts [] (some c1SysConfig) reachable (some "hosts.toml")
        (fun _ => tomlRes) = .ok r ∧
      r.filter (fun h => h.aliasName == "web1") = [c1SystemWeb1 reachable] := by
  have hsys : App.load_ssh_config [] (some c1SysConfig) reachable =
      .ok [c1SystemWeb1 reachable] := rfl
  cases tomlRes with
  | error e =>
    refine ⟨[c1SystemWeb1 reachable], ?_, ?_⟩
    · rfl
    · rfl
  | ok cfg =>
    refine ⟨App.handle_duplicate_hosts
      (retainFreshAliases ["web1"]
        (cfg.groups.flatMap fun g => g.hosts.map fun h => { h with group := some g.name }) ++
        [c1SystemWeb1 reachable]), rfl, ?_⟩
    rw [App.handle_duplicate_hosts,
      filter_retainFreshAliases_of_fresh _ (by simp), List.filter_append]
    have h1 : (retainFreshAliases ["web1"]
        (cfg.groups.flatMap fun g => g.hosts.map fun h => { h with group := some g.name })).filter
          (fun h => h.aliasName == "web1") = [] := by
      rw [List.filter_eq_nil_iff]
      intro a ha
      have hnm := mem_retainFreshAliases ha
      simp only [List.mem_singleton] at hnm
      simp [hnm]
    rw [h1, List.nil_append]
    rfl

/-! ## Claim C6 -/

/-- C6: after every registry load (load_all_hosts, ending with
handle_duplicate_hosts), no two hosts in the registry share an alias; and for
every alias, the entry kept is the first occurrence of that alias in the
pre-dedup list (the remainder is discarded). -/
theorem C6_dedup_invariant (hosts : List SshHost) (sshConfig : Option String)
    (reachable : String → Nat → Bool) (hostsFile : Option String)
    (parseToml : String → Except String HostsConfig) :
    ∃ merged,
      App.load_ssh_config hosts sshConfig reachable >>= (fun h1 =>
        App.load_custom_hosts h1 (ConfigManager.load_hosts hostsFile parseToml)) =
          .ok merged ∧
      App.load_all_hosts hosts sshConfig reachable hostsFile parseToml =
        .ok (App.handle_duplicate_hosts merged) ∧
      ((App.handle_duplicate_hosts merged).map (fun h => h.aliasName)).Nodup ∧
      ∀ a : String,
        (App.handle_duplicate_hosts merged).filter (fun h => h.aliasName == a) =
          (merged.filter (fun h => h.aliasName == a)).take 1 := by
  obtain ⟨h1, e1⟩ : ∃ h1, App.load_ssh_config hosts sshConfig reachable = .ok h1 := by
    cases sshConfig <;> exact ⟨_, rfl⟩
  obtain ⟨h2, e2⟩ : ∃ h2,
      App.load_custom_hosts h1 (ConfigManager.load_hosts hostsFile parseToml) = .ok h2 := by
    cases ConfigManager.load_hosts hostsFile parseToml <;> exact ⟨_, rfl⟩
  refine ⟨h2, ?_, ?_, nodup_retainFreshAliases [] h2,
    fun a => filter_retainFreshAliases_of_fresh h2 (by simp)⟩
  · rw [e1]
    show App.load_custom_hosts h1 (ConfigManager.load_hosts hostsFile parseToml) = .ok h2
    exact e2
  · unfold App.load_all_hosts
    rw [e1]
    show App.load_custom_hosts h1 (ConfigManager.load_hosts hostsFile parseToml) >>=
      (fun h2 => pure (App.handle_duplicate_hosts h2)) = _
    rw [e2]
    rfl

/-! ## Claim C9 -/

/-- C9 counterexample: the claim that a malformed custom hosts file makes the
(registry) load operation return a hard error to its caller is false on the
code: with a TOML parser failure, ConfigManager::load_hosts does error, but
App::load_custom_hosts logs and swallows that error, so App::load_all_hosts
still returns Ok (here with an empty registry). -/
theorem C9_counterexample :
    ConfigManager.load_hosts (some "not toml") c9BadParse =
      .error "Failed to parse hosts file" ∧
    App.load_all_hosts [] none (fun _ _ => false) (some "not toml") c9BadParse =
      .ok [] := by
  exact ⟨rfl, rfl⟩

/-- C9 (amended): missing files are treated as success with an empty
contribution (a missing hosts.toml yields Ok([]); a missing system SSH config
leaves only previously-loaded custom hosts and returns Ok); a hosts file that
exists but fails TOML parsing makes ConfigManager::load_hosts return a hard
error to its caller App::load_custom_hosts — which swallows it, returning Ok
with the registry unchanged, so the registry load as a whole still
succeeds. -/
theorem C9_missing_ok_malformed_swallowed :
    (∀ parseToml, ConfigManager.load_hosts none parseToml = .ok []) ∧
    (∀ (hosts : List SshHost) (reachable : String → Nat → Bool),
      App.load_ssh_config hosts none reachable =
        .ok (hosts.filter fun h => h.group.isSome)) ∧
    (∀ (content : String) (parseToml : String → Except String HostsConfig)
       (e : String), parseToml content = .error e →
      ConfigManager.load_hosts (some content) parseToml =
        .error "Failed to parse hosts file" ∧
      ∀ hosts, App.load_custom_hosts hosts
        (ConfigManager.load_hosts (some content) parseToml) = .ok hosts) := by
  refine ⟨fun _ => rfl, fun _ _ => rfl, fun content parseToml e he => ?_⟩
  have h1 : ConfigManager.load_hosts (some content) parseToml =
      .error "Failed to parse hosts file" := by
    unfold ConfigManager.load_hosts
    dsimp only
    rw [he]
  refine ⟨h1, fun hosts => ?_⟩
  unfold App.load_custom_hosts
  rw [h1]

/-- Witness for C9: the amended-claim theorem applied at a concrete malformed
file. -/
theorem C9_witness :
    ConfigManager.load_hosts (some "x") c9BadParse = .error "Failed to parse hosts file" ∧
    App.load_custom_hosts [] (ConfigManager.load_hosts (some "x") c9BadParse) = .ok [] := by
  have h := C9_missing_ok_malformed_swallowed.2.2 "x" c9BadParse "expected a table" rfl
  exact ⟨h.1, h.2 []⟩

/-! ## Claim C2 -/

/-- C2: while an SSH Session Worker is outstanding (`is_connecting` is set by
the accepted connect request and cleared only when the main loop processes a
terminal Error/Disconnected event), any further sequence of loop inputs that
contains no terminal event spawns no worker thread: the key-dispatch guard of
run_app ignores every further Enter, and the connecting flag stays set. -/
theorem C2_no_second_worker (s : AppLoopState) (inputs : List LoopInput)
    (hconn : s.is_connecting = true)
    (hterm : ∀ i ∈ inputs, i.isTerminalEvent = false) :
    (inputs.foldl run_app_step s).workers_spawned = s.workers_spawned ∧
      (inputs.foldl run_app_step s).is_connecting = true := by
  have h := run_app_steps_guarded s inputs hconn hterm
  exact ⟨h.2, h.1⟩

/-- Witness for C2: a state with one outstanding worker; a further Enter, the
Connecting and Connected events, and another Enter spawn nothing. -/
theorem C2_witness :
    (([LoopInput.keyEnter, LoopInput.sshEvent SshEvent.Connecting,
       LoopInput.sshEvent SshEvent.Connected, LoopInput.keyEnter].foldl run_app_step
      { is_connecting := true, ssh_ready_for_terminal := false, has_ssh_receiver := true,
        has_selected_host := true, workers_spawned := 1 }).workers_spawned =
      ({ is_connecting := true, ssh_ready_for_terminal := false, has_ssh_receiver := true,
         has_selected_host := true, workers_spawned := 1 } : AppLoopState).workers_spawned) ∧
    (([LoopInput.keyEnter, LoopInput.sshEvent SshEvent.Connecting,
       LoopInput.sshEvent SshEvent.Connected, LoopInput.keyEnter].foldl run_app_step
      { is_connecting := true, ssh_ready_for_terminal := false, has_ssh_receiver := true,
        has_selected_host := true, workers_spawned := 1 }).is_connecting = true) :=
  C2_no_second_worker _ _ (by decide) (by decide)

/-! ## Claim C3 -/

/-- C3: for a single SSH worker run, the event trace is Connecting first, then
exactly one of Connected or Error; when Connected, exactly one of Disconnected
or Error strictly afterwards; and nothing follows a test-failure Error.  (The
channel is single-producer single-consumer and FIFO, so the UI observes a
prefix of this trace in this order.) -/
theorem C3_event_order (probe : Except String ProbeOutput) (session : Except String Unit) :
    (∃ e, (App.ssh_thread_worker probe session).events =
      [SshEvent.Connecting, SshEvent.Error e]) ∨
    (App.ssh_thread_worker probe session).events =
      [SshEvent.Connecting, SshEvent.Connected, SshEvent.Disconnected] ∨
    (∃ e, (App.ssh_thread_worker probe session).events =
      [SshEvent.Connecting, SshEvent.Connected, SshEvent.Error e]) := by
  unfold App.ssh_thread_worker
  cases htest : App.test_ssh_connection probe with
  | ok u =>
    cases session with
    | ok _ => exact Or.inr (Or.inl rfl)
    | error e => exact Or.inr (Or.inr ⟨e, rfl⟩)
  | error e => exact Or.inl ⟨_, rfl⟩

/-! ## Claim C4 -/

/-- C4: when the probe command exits with a non-zero status, the worker sends
Connecting and then a single Error event whose message contains the trimmed
stderr of the probe, never runs the interactive SSH client (the Executing
phase is never entered), and sends nothing after that Error. -/
theorem C4_probe_failure (out : ProbeOutput) (session : Except String Unit)
    (h : out.success = false) :
    (App.ssh_thread_worker (.ok out) session).executed = false ∧
    (App.ssh_thread_worker (.ok out) session).events =
      [SshEvent.Connecting,
       SshEvent.Error ("Connection test failed: " ++
         ("SSH connection test failed: " ++ strTrim out.stderr))] ∧
    ∃ p, ("Connection test failed: " ++
        ("SSH connection test failed: " ++ strTrim out.stderr)) =
      p ++ strTrim out.stderr := by
  have htest : App.test_ssh_connection (.ok out) =
      .error ("SSH connection test failed: " ++ strTrim out.stderr) := by
    unfold App.test_ssh_connection
    dsimp only
    rw [h]
    simp
  unfold App.ssh_thread_worker
  rw [htest]
  refine ⟨rfl, rfl, "Connection test failed: SSH connection test failed: ", ?_⟩
  apply String.ext
  rw [String.data_append, String.data_append, String.data_append]
  rw [show ("Connection test failed: SSH connection test failed: ").data =
    ("Connection test failed: ").data ++ ("SSH connection test failed: ").data from rfl]
  rw [List.append_assoc]

/-- Witness for C4: a concrete failed probe with stderr " refused ". -/
theorem C4_witness :
    (App.ssh_thread_worker (.ok { success := false, stderr := " refused " })
      (.ok ())).executed = false ∧
    (App.ssh_thread_worker (.ok { success := false, stderr := " refused " })
      (.ok ())).events =
      [SshEvent.Connecting,
       SshEvent.Error ("Connection test failed: " ++
         ("SSH connection test failed: " ++ strTrim " refused "))] ∧
    ∃ p, ("Connection test failed: " ++
        ("SSH connection test failed: " ++ strTrim " refused ")) =
      p ++ strTrim " refused " :=
  C4_probe_failure { success := false, stderr := " refused " } (.ok ()) rfl

/-! ## Claim C5 -/

/-- C5: for a single upload, the progress reports have non-decreasing
bytes_done, and when the loop has read the whole file (the chunk sum equals
the metadata size) the final report is (total, total); for a single download,
provided the observed sizes of the growing file never exceed the remote stat
total, the reports are non-decreasing and on success the final report is
(total, total). -/
theorem C5_progress_monotone (total_size : Nat) (chunks : List Nat)
    (observed : List Nat) (success : Bool)
    (hobs : ∀ o ∈ observed, o ≤ total_size) :
    List.Chain' (fun a b : Nat × Nat => a.1 ≤ b.1) (sftp_upload_reports total_size chunks) ∧
    (chunks.sum = total_size → chunks ≠ [] →
      (sftp_upload_reports total_size chunks).getLast? = some (total_size, total_size)) ∧
    List.Chain' (fun a b : Nat × Nat => a.1 ≤ b.1)
      (sftp_download_reports total_size observed success) ∧
    (success = true →
      (sftp_download_reports total_size observed success).getLast? =
        some (total_size, total_size)) := by
  refine ⟨?_, ?_, ?_, ?_⟩
  · cases chunks with
    | nil => exact List.chain'_nil
    | cons c cs => exact chain_uploadReportsFrom total_size cs (0 + c)
  · intro hsum hne
    rw [sftp_upload_reports, getLast?_uploadReportsFrom total_size chunks 0 hne,
      Nat.zero_add, hsum]
  · cases success with
    | true =>
      unfold sftp_download_reports
      rw [if_pos (show (true : Bool) = true from rfl)]
      exact chain_downloadMonitorReports_final total_size observed 0
        (Nat.zero_le _) hobs
    | false =>
      unfold sftp_download_reports
      rw [if_neg (show ¬ ((false : Bool) = true) by simp), List.append_nil]
      exact chain_downloadMonitorReports total_size observed 0
  · intro hs
    subst hs
    unfold sftp_download_reports
    rw [if_pos (show (true : Bool) = true from rfl)]
    show (((0, total_size) :: downloadMonitorReports total_size 0 observed) ++
      [(total_size, total_size)]).getLast? = some (total_size, total_size)
    exact List.getLast?_concat _

/-- Witness for C5: a two-chunk upload of 5 bytes and a download with observed
sizes 1 and 4. -/
theorem C5_witness :
    List.Chain' (fun a b : Nat × Nat => a.1 ≤ b.1) (sftp_upload_reports 5 [2, 3]) ∧
    (([2, 3] : List Nat).sum = 5 → ([2, 3] : List Nat) ≠ [] →
      (sftp_upload_reports 5 [2, 3]).getLast? = some (5, 5)) ∧
    List.Chain' (fun a b : Nat × Nat => a.1 ≤ b.1) (sftp_download_reports 5 [1, 4] true) ∧
    (true = true → (sftp_download_reports 5 [1, 4] true).getLast? = some (5, 5)) :=
  C5_progress_monotone 5 [2, 3] [1, 4] true (by decide)

/-! ## Claim C7 -/

unseal List.merge List.mergeSort in
/-- C7: every directory listing, local or remote, is sorted in the order the
specification describes — the synthetic `".."` first, then directories in
alphabetical order, then files in alphabetical order — and is a permutation
of the items that were built; in particular, the spec's example
`{"b.txt", "..", "a_dir", "c.txt"}` at a non-root path sorts to
`["..", "a_dir", "b.txt", "c.txt"]`. -/
theorem C7_sort_invariant :
    (∀ (hasParent : Bool) (entries : List RawEntry),
      (read_local_directory hasParent entries).Pairwise specListingLe ∧
      (read_local_directory hasParent entries).Perm (localListingItems hasParent entries)) ∧
    (∀ (remote_path stdout : String) (files : List FileItem),
      read_remote_directory remote_path (.ok stdout) = .ok files →
      files.Pairwise specListingLe ∧ files.Perm (remoteListingItems remote_path stdout)) ∧
    read_local_directory true c7Entries =
      [FileItem.Directory "..", FileItem.Directory "a_dir",
       FileItem.File "b.txt" 3, FileItem.File "c.txt" 5] := by
  refine ⟨fun hasParent entries =>
    ⟨read_local_directory_sorted hasParent entries, read_local_directory_perm hasParent entries⟩,
    fun rp out files hf => ?_, by decide⟩
  have hfe : (remoteListingItems rp out).mergeSort listingLe = files := by
    injection hf
  subst hfe
  exact ⟨remote_listing_sorted rp out, List.mergeSort_perm _ _⟩

unseal List.merge List.mergeSort in
/-- Witness for C7: the remote conjunct applied to a concrete listing. -/
theorem C7_witness :
    read_remote_directory "/x" (.ok "") = .ok [FileItem.Directory ".."] ∧
    ([FileItem.Directory ".."].Pairwise specListingLe ∧
      [FileItem.Directory ".."].Perm (remoteListingItems "/x" "")) :=
  ⟨by decide, C7_sort_invariant.2.1 "/x" "" [FileItem.Directory ".."] (by decide)⟩

/-! ## Claim C8 -/

theorem open_local_selected_parent {s : AppSftpState} {fsE : Except String (List RawEntry)}
    {s1 : AppSftpState}
    (hget : s.local_files.get? s.local_selected = some (FileItem.Directory ".."))
    (h : s.open_local_selected fsE = .ok s1) :
    s1.local_current_path = (match pathParent s.local_current_path with
      | some p => p
      | none => s.local_current_path) := by
  unfold AppSftpState.open_local_selected at h
  rw [hget] at h
  dsimp only at h
  rw [if_pos rfl] at h
  exact (refresh_local_ok_fields h).1

theorem open_remote_selected_parent {s : AppSftpState} {r : Except String String}
    {s1 : AppSftpState}
    (hget : s.remote_files.get? s.remote_selected = some (FileItem.Directory ".."))
    (h : s.open_remote_selected r = .ok s1) :
    s1.remote_current_path =
      (if s.remote_current_path ≠ "/" then remoteParentPath s.remote_current_path
       else s.remote_current_path) := by
  unfold AppSftpState.open_remote_selected at h
  rw [hget] at h
  dsimp only at h
  rw [if_pos rfl] at h
  exact (refresh_remote_ok_fields h).1

/-- C8: entering a directory `foo` and then selecting the synthetic `".."`
restores exactly the prior path, for the local panel (component paths) and
the remote panel (string paths, for any reachable path shape: the root or a
slash-initial, non-slash-terminal string); at the remote root, selecting
`".."` keeps the path `"/"`; and no `".."` entry is synthesized in a listing
of the remote root. -/
theorem C8_parent_roundtrip :
    (∀ (s : AppSftpState) (foo : String) (e1 e2 : Except String (List RawEntry))
       (s1 s2 : AppSftpState),
      s.local_files.get? s.local_selected = some (FileItem.Directory foo) → foo ≠ ".." →
      s.open_local_selected e1 = .ok s1 →
      s1.local_files.get? s1.local_selected = some (FileItem.Directory "..") →
      s1.open_local_selected e2 = .ok s2 →
      s2.local_current_path = s.local_current_path) ∧
    (∀ (s : AppSftpState) (foo : String) (r1 r2 : Except String String)
       (s1 s2 : AppSftpState),
      s.remote_files.get? s.remote_selected = some (FileItem.Directory foo) → foo ≠ ".." →
      foo.data ≠ [] → (∀ c ∈ foo.data, c ≠ '/') →
      (s.remote_current_path = "/" ∨
        (strStartsWith s.remote_current_path "/" = true ∧
          strEndsWithChar s.remote_current_path '/' = false)) →
      s.open_remote_selected r1 = .ok s1 →
      s1.remote_files.get? s1.remote_selected = some (FileItem.Directory "..") →
      s1.open_remote_selected r2 = .ok s2 →
      s2.remote_current_path = s.remote_current_path) ∧
    (∀ (s : AppSftpState) (r : Except String String) (s1 : AppSftpState),
      s.remote_current_path = "/" →
      s.remote_files.get? s.remote_selected = some (FileItem.Directory "..") →
      s.open_remote_selected r = .ok s1 →
      s1.remote_current_path = "/") ∧
    (∀ (stdout : String) (files : List FileItem),
      read_remote_directory "/" (.ok stdout) = .ok files →
      FileItem.Directory ".." ∉ files) := by
  refine ⟨?_, ?_, ?_, ?_⟩
  · intro s foo e1 e2 s1 s2 hget hne h1 hget2 h2
    have hp1 : s1.local_current_path = s.local_current_path ++ [foo] :=
      open_local_selected_enter hget hne h1
    have hp2 := open_local_selected_parent hget2 h2
    rw [hp2, hp1, pathParent_concat]
  · intro s foo r1 r2 s1 s2 hget hne hfne hsl hp h1 hget2 h2
    have hp1 : s1.remote_current_path =
        (if strEndsWithChar s.remote_current_path '/' then s.remote_current_path ++ foo
         else s.remote_current_path ++ "/" ++ foo) :=
      open_remote_selected_enter hget hne h1
    have hroot : s1.remote_current_path ≠ "/" := by
      rw [hp1]
      rcases hp with hr | ⟨hstart, hend⟩
      · rw [hr, if_pos (show strEndsWithChar "/" '/' = true from rfl)]
        intro hc
        have hd := congrArg String.data hc
        rw [String.data_append] at hd
        simp at hd
        exact hfne hd
      · rw [if_neg (by rw [hend]; exact Bool.false_ne_true)]
        intro hc
        have hd := congrArg (fun t : String => t.data.length) hc
        simp only [String.data_append, List.length_append] at hd
        have hone : ("/" : String).data.length = 1 := rfl
        rw [hone] at hd
        have hfp : 0 < foo.data.length := List.length_pos.2 hfne
        omega
    have hp2 := open_remote_selected_parent hget2 h2
    rw [hp2, if_pos hroot, hp1]
    exact remoteParentPath_of_join s.remote_current_path foo hp hfne hsl
  · intro s r s1 hroot hget h
    have hp := open_remote_selected_parent hget h
    rw [hp, hroot, if_neg (show ¬ (("/" : String) ≠ "/") by simp)]
  · intro stdout files hf
    have hfe : (remoteListingItems "/" stdout).mergeSort listingLe = files := by
      injection hf
    subst hfe
    intro hmem
    rw [List.mem_mergeSort] at hmem
    have hitems : remoteListingItems "/" stdout =
        ((strLines stdout).drop 1).foldl lsLineStep [] := by
      unfold remoteListingItems
      rw [if_neg (show ¬ (("/" : String) ≠ "/") by simp)]
    rw [hitems] at hmem
    exact foldl_lsLineStep_no_parent _ [] (by simp) hmem

unseal List.merge List.mergeSort in
/-- Witness for C8: the concrete round trips of `w8Start` (local `/a` →
`/a/sub` → `/a`; remote `/` → `/pub` → `/`), the root edge case, and the
root listing of an empty `ls` output. -/
theorem C8_witness :
    w8LocalBack.local_current_path = w8Start.local_current_path ∧
    w8RemoteBack.remote_current_path = w8Start.remote_current_path ∧
    w8RootAfter.remote_current_path = "/" ∧
    FileItem.Directory ".." ∉ ([] : List FileItem) :=
  ⟨C8_parent_roundtrip.1 w8Start "sub" (.ok []) (.ok []) w8LocalIn w8LocalBack
      (by decide) (by decide) (by decide) (by decide) (by decide),
    C8_parent_roundtrip.2.1 w8Start "pub" (.ok "") (.ok "") w8RemoteIn w8RemoteBack
      (by decide) (by decide) (by decide) (by decide) (by decide) (by decide)
      (by decide) (by decide),
    C8_parent_roundtrip.2.2.1 w8Root (.ok "") w8RootAfter rfl (by decide) (by decide),
    C8_parent_roundtrip.2.2.2 "" [] (by decide)⟩

/-! ## Claim C10 -/

theorem clamp_lt (sel len : Nat) (h : 0 < len) :
    (if sel ≥ len then len - 1 else sel) < len := by
  split_ifs <;> omega

/-- C10: after a successful refresh the selected index is strictly below the
listing length whenever the listing is non-empty (with no precondition on the
previous index); the navigation moves preserve that bound, wrapping from the
last entry to 0 on down and from 0 to the last entry on up; so lookup of the
selected entry stays in bounds. -/
theorem C10_selection_in_bounds :
    (∀ (s : AppSftpState) (fsE : Except String (List RawEntry)) (s2 : AppSftpState),
      s.refresh_local fsE = .ok s2 → s2.local_files ≠ [] →
      s2.local_selected < s2.local_files.length) ∧
    (∀ (s : AppSftpState) (r : Except String String) (s2 : AppSftpState),
      s.refresh_remote r = .ok s2 → s2.remote_files ≠ [] →
      s2.remote_selected < s2.remote_files.length) ∧
    (∀ s : AppSftpState, s.local_files ≠ [] → s.local_selected < s.local_files.length →
      s.navigate_local_up.local_selected < s.local_files.length ∧
      (s.local_selected = 0 →
        s.navigate_local_up.local_selected = s.local_files.length - 1)) ∧
    (∀ s : AppSftpState, s.local_files ≠ [] →
      s.navigate_local_down.local_selected < s.local_files.length ∧
      (s.local_selected = s.local_files.length - 1 →
        s.navigate_local_down.local_selected = 0)) ∧
    (∀ s : AppSftpState, s.remote_files ≠ [] → s.remote_selected < s.remote_files.length →
      s.navigate_remote_up.remote_selected < s.remote_files.length ∧
      (s.remote_selected = 0 →
        s.navigate_remote_up.remote_selected = s.remote_files.length - 1)) ∧
    (∀ s : AppSftpState, s.remote_files ≠ [] →
      s.navigate_remote_down.remote_selected < s.remote_files.length ∧
      (s.remote_selected = s.remote_files.length - 1 →
        s.navigate_remote_down.remote_selected = 0)) := by
  refine ⟨?_, ?_, ?_, ?_, ?_, ?_⟩
  · intro s fsE s2 h hne
    unfold AppSftpState.refresh_local at h
    cases fsE with
    | error e => exact absurd h (by simp)
    | ok entries =>
      injection h with h2
      subst h2
      exact clamp_lt _ _ (List.length_pos.2 hne)
  · intro s r s2 h hne
    unfold AppSftpState.refresh_remote at h
    cases hr : read_remote_directory s.remote_current_path r with
    | error e => rw [hr] at h; exact absurd h (by simp)
    | ok files =>
      rw [hr] at h
      injection h with h2
      subst h2
      exact clamp_lt _ _ (List.length_pos.2 hne)
  · intro s hne hsel
    have hpos := List.length_pos.2 hne
    unfold AppSftpState.navigate_local_up
    constructor
    · split_ifs with h1 h2
      · dsimp only
        omega
      · dsimp only
        omega
      · exact absurd (by simp [List.isEmpty_iff, hne]) h2
    · intro h0
      rw [if_neg (by omega), if_pos (by simp [List.isEmpty_iff, hne])]
  · intro s hne
    have hpos := List.length_pos.2 hne
    unfold AppSftpState.navigate_local_down
    constructor
    · split_ifs with h1 <;> dsimp only <;> omega
    · intro h0
      rw [if_neg (by omega)]
  · intro s hne hsel
    have hpos := List.length_pos.2 hne
    unfold AppSftpState.navigate_remote_up
    constructor
    · split_ifs with h1 h2
      · dsimp only
        omega
      · dsimp only
        omega
      · exact absurd (by simp [List.isEmpty_iff, hne]) h2
    · intro h0
      rw [if_neg (by omega), if_pos (by simp [List.isEmpty_iff, hne])]
  · intro s hne
    have hpos := List.length_pos.2 hne
    unfold AppSftpState.navigate_remote_down
    constructor
    · split_ifs with h1 <;> dsimp only <;> omega
    · intro h0
      rw [if_neg (by omega)]

unseal List.merge List.mergeSort in
/-- Witness for C10: a refresh of `w8Start` with one raw entry, and the four
navigation moves on `w8Start` (one local entry, one remote entry). -/
theorem C10_witness :
    ((w8Start.refresh_local (.ok [{ name := "f", is_dir := false, size := 1 }])).toOption.all
      fun s2 => decide (s2.local_selected < s2.local_files.length)) = true ∧
    (w8Start.navigate_local_up.local_selected < w8Start.local_files.length ∧
      (w8Start.local_selected = 0 →
        w8Start.navigate_local_up.local_selected = w8Start.local_files.length - 1)) ∧
    (w8Start.navigate_local_down.local_selected < w8Start.local_files.length ∧
      (w8Start.local_selected = w8Start.local_files.length - 1 →
        w8Start.navigate_local_down.local_selected = 0)) ∧
    (w8Start.navigate_remote_up.remote_selected < w8Start.remote_files.length ∧
      (w8Start.remote_selected = 0 →
        w8Start.navigate_remote_up.remote_selected = w8Start.remote_files.length - 1)) ∧
    (w8Start.navigate_remote_down.remote_selected < w8Start.remote_files.length ∧
      (w8Start.remote_selected = w8Start.remote_files.length - 1 →
        w8Start.navigate_remote_down.remote_selected = 0)) := by
  refine ⟨by decide,
    C10_selection_in_bounds.2.2.1 w8Start (by decide) (by decide),
    C10_selection_in_bounds.2.2.2.1 w8Start (by decide),
    C10_selection_in_bounds.2.2.2.2.1 w8Start (by decide) (by decide),
    C10_selection_in_bounds.2.2.2.2.2 w8Start (by decide)⟩

end Sshr
